import Mathlib

/-!
Verification development for the sync_gateway repository: revision trees,
channel caches, sequence bookkeeping, checkpoints, the blip attachment
exchange, keyspace resolution, and the reflection / document helpers.

Definitions that embed code present in the repository keep the source names.
Components whose implementation is not part of the source tree here (only the
spec and the tests describe them) are modelled from the spec; each such
definition says so in its doc comment.
-/

/- ----------------------------------------------------------------- -/
/- RevisionTree (claims C1, C2)                                      -/
/- ----------------------------------------------------------------- -/

/-- Modelled from the spec: a composite revision ID `generation-digest`
(spec section 3, RevisionTree node). -/
structure RevID where
  generation : Nat
  digest : String
deriving DecidableEq, Repr

/-- Comparison key of a revision ID: generation first, then the digest
compared lexicographically (character by character), per the spec's winning
revision rule. -/
def RevID.key (r : RevID) : Lex (Nat × List Char) := toLex (r.generation, r.digest.data)

theorem RevID.key_injective : Function.Injective RevID.key := by
  rintro ⟨g₁, ⟨d₁⟩⟩ ⟨g₂, ⟨d₂⟩⟩ h
  have h2 : (g₁, d₁) = (g₂, d₂) := toLex.injective h
  simp only [Prod.mk.injEq] at h2
  simp [h2.1, h2.2]

instance : LinearOrder RevID := LinearOrder.lift' RevID.key RevID.key_injective

/-- Modelled from the spec: a RevisionTree node — revision ID, nullable
parent revision ID, deleted flag and channel set (spec section 3). -/
structure RevNode where
  revID : RevID
  parent : Option RevID
  deleted : Bool
  channels : List String
deriving DecidableEq, Repr

/-- Modelled from the spec: the error reported by AddRevision when the named
parent is absent (spec section 4.1). -/
inductive RevTreeError where
  | invalidParent
deriving DecidableEq, Repr

/-- A revision tree is kept as the list of its nodes (spec section 3: a DAG
keyed by revision ID; the edges are the parent pointers stored in the nodes). -/
abbrev RevTree := List RevNode

/-- True when the tree holds a node with the given revision ID. -/
def revTreeContains (t : RevTree) (rid : RevID) : Bool :=
  t.any (fun n => n.revID = rid)

/-- Modelled from the spec: AddRevision inserts a node and fails with
InvalidParent when the parent ID is non-empty and absent from the tree,
unless disconnected history is being inserted during a
new_edits=false batch load (spec section 4.1). -/
def addRevision (t : RevTree) (newEdits : Bool) (n : RevNode) : Except RevTreeError RevTree :=
  match n.parent with
  | none => .ok (n :: t)
  | some p =>
    if revTreeContains t p then .ok (n :: t)
    else if newEdits then .error .invalidParent
    else .ok (n :: t)

/-- Inserts a whole batch of revisions in the given order using the
new_edits=false import path (the path on which any insertion order of a
node set is accepted, per spec section 4.1). -/
def importRevisions (l : List RevNode) : RevTree :=
  l.foldl (fun t n =>
    match addRevision t false n with
    | .ok t2 => t2
    | .error _ => t) []

/-- A node is a leaf when no node of the tree names it as parent. -/
def isLeaf (t : RevTree) (n : RevNode) : Bool :=
  !t.any (fun m => m.parent = some n.revID)

/-- The leaves of the tree. -/
def leaves (t : RevTree) : List RevNode :=
  t.filter (fun n => isLeaf t n)

/-- Fold picking the greatest revision ID of a list under the
(generation, digest) lexicographic order, `none` on the empty list. -/
def pickWinner (l : List RevID) : Option RevID :=
  l.foldr (fun r acc => match acc with | none => some r | some m => some (max r m)) none

/-- Modelled from the spec: WinningRevision returns the non-deleted leaf with
the greatest (generation, digest) pair; when every leaf is deleted the winner
is the deleted leaf chosen by the same rule (spec sections 3 and 4.1). -/
def winningRevision (t : RevTree) : Option RevID :=
  let ls := leaves t
  let live := ls.filter (fun n => !n.deleted)
  let cands := if live.isEmpty then ls else live
  pickWinner (cands.map RevNode.revID)

/-- Revision 1-a, the root of the conflict scenario of spec section 8. -/
def node1a : RevNode := ⟨⟨1, "a"⟩, none, false, []⟩

/-- Revision 2-b with parent 1-a. -/
def node2b : RevNode := ⟨⟨2, "b"⟩, some ⟨1, "a"⟩, false, []⟩

/-- Revision 2-c with parent 1-a. -/
def node2c : RevNode := ⟨⟨2, "c"⟩, some ⟨1, "a"⟩, false, []⟩

/-- The tree of the conflict scenario, built through the validated
AddRevision path: 1-a as root, then 2-b and 2-c, each with parent 1-a. -/
def conflictScenarioTree : Except RevTreeError RevTree :=
  (addRevision [] true node1a).bind (fun t1 =>
    (addRevision t1 true node2b).bind (fun t2 =>
      addRevision t2 true node2c))

/-- Claim C1: inserting 1-a as root and then 2-b and 2-c, each with parent
1-a, succeeds and produces a tree with exactly two leaves, and
WinningRevision returns 2-c, the leaf whose digest is lexicographically
greatest at equal generation. -/
theorem conflict_scenario_two_leaves_winner_2c :
    conflictScenarioTree = .ok [node2c, node2b, node1a]
    ∧ (leaves [node2c, node2b, node1a]).length = 2
    ∧ winningRevision [node2c, node2b, node1a] = some ⟨2, "c"⟩ :=
  ⟨rfl, by decide, by decide⟩

instance pickWinnerStepLC : LeftCommutative (fun (r : RevID) (acc : Option RevID) =>
    match acc with | none => some r | some m => some (max r m)) := by
  constructor
  intro a b c
  cases c with
  | none => simp [max_comm]
  | some m => simp [max_left_comm]

theorem pickWinner_perm {l₁ l₂ : List RevID} (h : l₁.Perm l₂) :
    pickWinner l₁ = pickWinner l₂ :=
  h.foldr_eq none

theorem perm_any_eq {α : Type} {l₁ l₂ : List α} (h : l₁.Perm l₂) (f : α → Bool) :
    l₁.any f = l₂.any f := by
  rw [Bool.eq_iff_iff]
  simp only [List.any_eq_true]
  constructor
  · rintro ⟨x, hx, hfx⟩
    exact ⟨x, h.mem_iff.mp hx, hfx⟩
  · rintro ⟨x, hx, hfx⟩
    exact ⟨x, h.mem_iff.mpr hx, hfx⟩

theorem isLeaf_perm {t₁ t₂ : RevTree} (h : t₁.Perm t₂) :
    isLeaf t₁ = isLeaf t₂ := by
  funext n
  unfold isLeaf
  rw [perm_any_eq h]

theorem leaves_perm {t₁ t₂ : RevTree} (h : t₁.Perm t₂) :
    (leaves t₁).Perm (leaves t₂) := by
  unfold leaves
  rw [isLeaf_perm h]
  exact h.filter _

theorem winningRevision_perm {t₁ t₂ : RevTree} (h : t₁.Perm t₂) :
    winningRevision t₁ = winningRevision t₂ := by
  unfold winningRevision
  have hl := leaves_perm h
  have hlive := hl.filter (fun n => !n.deleted)
  simp only [hlive.isEmpty_eq]
  cases ((leaves t₂).filter (fun n => !n.deleted)).isEmpty with
  | true => exact pickWinner_perm (hl.map RevNode.revID)
  | false => exact pickWinner_perm (hlive.map RevNode.revID)

theorem addRevision_import (t : RevTree) (n : RevNode) :
    addRevision t false n = .ok (n :: t) := by
  unfold addRevision
  cases n.parent with
  | none => rfl
  | some p =>
    simp only []
    split <;> rfl

theorem importRevisions_eq_reverse (l : List RevNode) : importRevisions l = l.reverse := by
  unfold importRevisions
  have hfun : (fun (t : RevTree) (n : RevNode) =>
      match addRevision t false n with
      | .ok t2 => t2
      | .error _ => t) = fun t n => n :: t := by
    funext t n
    rw [addRevision_import]
  rw [hfun]
  suffices h : ∀ acc : RevTree, l.foldl (fun t n => n :: t) acc = l.reverse ++ acc by
    exact (h []).trans (by simp)
  induction l with
  | nil => intro acc; rfl
  | cons x xs ih =>
    intro acc
    simp only [List.foldl_cons, List.reverse_cons, List.append_assoc, List.singleton_append, ih]

/-- Claim C2: for every finite node set and every two insertion orders of it
into an empty RevisionTree, WinningRevision returns the same revision ID
after all insertions: the winner is a function of the node set only. -/
theorem winningRevision_insertion_order_independent
    (l₁ l₂ : List RevNode) (h : l₁.Perm l₂) :
    winningRevision (importRevisions l₁) = winningRevision (importRevisions l₂) := by
  apply winningRevision_perm
  rw [importRevisions_eq_reverse, importRevisions_eq_reverse]
  exact (l₁.reverse_perm.trans h).trans l₂.reverse_perm.symm

/-- Witness for claim C2: two concrete insertion orders of the conflict
scenario node set produce the same winner. -/
theorem winningRevision_insertion_order_independent_witness :
    winningRevision (importRevisions [node1a, node2b, node2c])
      = winningRevision (importRevisions [node2c, node1a, node2b]) :=
  winningRevision_insertion_order_independent _ _ (by decide)

/- ----------------------------------------------------------------- -/
/- ChannelCache (claims C3, C4, C5)                                  -/
/- ----------------------------------------------------------------- -/

/-- Modelled from the spec: a channel cache entry
(sequence, docID, revisionID, removed) (spec section 3). -/
structure ChannelCacheEntry where
  sequence : Nat
  docID : String
  revisionID : String
  removed : Bool
deriving DecidableEq, Repr

/-- Modelled from the spec: the sequence-sorted insert path of
ChannelCache.Add — a late arrival is inserted in order, not appended
(spec section 4.2); an entry with an already-present sequence supersedes
the stored one, keeping the strictly-increasing-by-sequence invariant
of spec section 3. -/
def insertCacheEntry (e : ChannelCacheEntry) : List ChannelCacheEntry → List ChannelCacheEntry
  | [] => [e]
  | x :: xs =>
    if e.sequence < x.sequence then e :: x :: xs
    else if e.sequence = x.sequence then e :: xs
    else x :: insertCacheEntry e xs

/-- The cache contents after adding the given entries, in arrival order,
to an empty channel cache. -/
def buildChannelCache (arrivals : List ChannelCacheEntry) : List ChannelCacheEntry :=
  arrivals.foldl (fun c e => insertCacheEntry e c) []

/-- Modelled from the spec: Since(fromSequence) produces the cached entries
with sequence > fromSequence, in increasing sequence order (spec section 4.2). -/
def sinceSeq (fromSequence : Nat) (c : List ChannelCacheEntry) : List ChannelCacheEntry :=
  c.filter (fun e => fromSequence < e.sequence)

/-- Entries are strictly increasing by sequence. -/
def seqSorted (c : List ChannelCacheEntry) : Prop :=
  c.Pairwise (fun a b => a.sequence < b.sequence)

theorem mem_insertCacheEntry {e b : ChannelCacheEntry} :
    ∀ {c : List ChannelCacheEntry}, b ∈ insertCacheEntry e c → b = e ∨ b ∈ c := by
  intro c
  induction c with
  | nil =>
    intro hb
    simpa [insertCacheEntry] using hb
  | cons x xs ih =>
    intro hb
    unfold insertCacheEntry at hb
    by_cases h1 : e.sequence < x.sequence
    · rw [if_pos h1] at hb
      rcases List.mem_cons.mp hb with hb | hb
      · exact Or.inl hb
      · exact Or.inr hb
    · rw [if_neg h1] at hb
      by_cases h2 : e.sequence = x.sequence
      · rw [if_pos h2] at hb
        rcases List.mem_cons.mp hb with hb | hb
        · exact Or.inl hb
        · exact Or.inr (List.mem_cons_of_mem x hb)
      · rw [if_neg h2] at hb
        rcases List.mem_cons.mp hb with hb | hb
        · exact Or.inr (hb ▸ List.mem_cons_self x xs)
        · rcases ih hb with hb2 | hb2
          · exact Or.inl hb2
          · exact Or.inr (List.mem_cons_of_mem x hb2)

theorem insertCacheEntry_sorted {c : List ChannelCacheEntry} (e : ChannelCacheEntry)
    (h : seqSorted c) : seqSorted (insertCacheEntry e c) := by
  induction c with
  | nil => exact List.pairwise_singleton _ _
  | cons x xs ih =>
    unfold seqSorted at h
    rw [List.pairwise_cons] at h
    unfold insertCacheEntry seqSorted
    by_cases h1 : e.sequence < x.sequence
    · rw [if_pos h1]
      refine List.pairwise_cons.mpr ⟨?_, List.pairwise_cons.mpr h⟩
      intro b hb
      rcases List.mem_cons.mp hb with hb | hb
      · simpa [hb] using h1
      · exact Nat.lt_trans h1 (h.1 b hb)
    · rw [if_neg h1]
      by_cases h2 : e.sequence = x.sequence
      · rw [if_pos h2]
        refine List.pairwise_cons.mpr ⟨?_, h.2⟩
        intro b hb
        rw [h2]
        exact h.1 b hb
      · rw [if_neg h2]
        have hgt : x.sequence < e.sequence := by omega
        refine List.pairwise_cons.mpr ⟨?_, ih h.2⟩
        intro b hb
        rcases mem_insertCacheEntry hb with hbe | hbx
        · exact hbe ▸ hgt
        · exact h.1 b hbx

theorem buildChannelCache_sorted (arrivals : List ChannelCacheEntry) :
    seqSorted (buildChannelCache arrivals) := by
  unfold buildChannelCache
  suffices h : ∀ c : List ChannelCacheEntry, seqSorted c →
      seqSorted (arrivals.foldl (fun c e => insertCacheEntry e c) c) from
    h [] List.Pairwise.nil
  induction arrivals with
  | nil => intro c hc; exact hc
  | cons x xs ih =>
    intro c hc
    exact ih _ (insertCacheEntry_sorted x hc)

/-- Claim C3: for every arrival order and every starting sequence, the
stream produced by Since contains only entries with sequence greater than
the starting sequence, in strictly increasing sequence order (hence with no
duplicate sequence numbers). -/
theorem since_increasing_and_bounded (arrivals : List ChannelCacheEntry) (fromSequence : Nat) :
    seqSorted (sinceSeq fromSequence (buildChannelCache arrivals))
    ∧ ∀ e ∈ sinceSeq fromSequence (buildChannelCache arrivals), fromSequence < e.sequence := by
  constructor
  · exact (buildChannelCache_sorted arrivals).sublist (List.filter_sublist _)
  · intro e he
    have := List.of_mem_filter he
    simpa using this

/-- Witness for claim C3: a concrete member of a Since stream over a
concrete out-of-order arrival batch has sequence above the start. -/
theorem since_increasing_and_bounded_witness :
    9 < (⟨10, "d2", "r2", false⟩ : ChannelCacheEntry).sequence :=
  (since_increasing_and_bounded
    [⟨11, "d1", "r1", false⟩, ⟨10, "d2", "r2", false⟩, ⟨12, "d3", "r3", false⟩] 9).2
    ⟨10, "d2", "r2", false⟩ (by decide)

/-- Modelled from the spec: the events that move allocated sequences between
the skipped set, the cache, and the aborted set (spec sections 3, 4.2, 8):
allocation issues the next sequence (pending until visible), an arrival makes
a pending sequence visible in the cache, and a timeout marks a pending
sequence aborted after the bounded wait. -/
inductive SeqEvent where
  | allocate
  | arrive (e : ChannelCacheEntry)
  | timeoutAbort (s : Nat)
deriving DecidableEq, Repr

/-- Modelled from the spec: the allocator high-water mark, the channel cache
entries, the skipped (allocated but not yet visible) sequences and the
aborted sequences (spec section 3, SkippedSequenceRange). -/
structure SeqCacheState where
  nextSeq : Nat
  entries : List ChannelCacheEntry
  skipped : List Nat
  aborted : List Nat
deriving DecidableEq, Repr

/-- Modelled from the spec: one transition of the sequence bookkeeping.
An arrival for a sequence that was in the skipped set removes it from that
set and makes it visible through the sorted insert path; a timeout moves a
pending sequence to the aborted set; events whose guard fails leave the
state unchanged. -/
def applyEvent (st : SeqCacheState) : SeqEvent → SeqCacheState
  | .allocate => { st with nextSeq := st.nextSeq + 1, skipped := st.nextSeq :: st.skipped }
  | .arrive e =>
    if e.sequence ∈ st.skipped then
      { st with entries := insertCacheEntry e st.entries,
                skipped := st.skipped.erase e.sequence }
    else st
  | .timeoutAbort s =>
    if s ∈ st.skipped then
      { st with skipped := st.skipped.erase s, aborted := s :: st.aborted }
    else st

/-- Runs a sequence of events from an empty state whose allocator starts at
the given sequence. -/
def runEvents (start : Nat) (evs : List SeqEvent) : SeqCacheState :=
  evs.foldl applyEvent ⟨start, [], [], []⟩

/-- The sequences visible in a cache entry list. -/
def entrySeqs (c : List ChannelCacheEntry) : List Nat :=
  c.map (fun e => e.sequence)

/-- Every sequence the state accounts for: visible in the cache, pending in
the skipped set, or marked aborted. -/
def allSeqs (st : SeqCacheState) : List Nat :=
  entrySeqs st.entries ++ st.skipped ++ st.aborted

/-- The partition invariant of spec section 3: every allocated sequence is
accounted for, in exactly one of the three sets (the listing of all three
sets is duplicate-free), and the cache is strictly sorted. -/
structure SeqInv (start : Nat) (st : SeqCacheState) : Prop where
  partition : ∀ s : Nat, (start ≤ s ∧ s < st.nextSeq) ↔ s ∈ allSeqs st
  nodup : (allSeqs st).Nodup
  le_next : start ≤ st.nextSeq
  sorted : seqSorted st.entries

theorem insertCacheEntry_perm {e : ChannelCacheEntry} {c : List ChannelCacheEntry}
    (h : e.sequence ∉ entrySeqs c) : (insertCacheEntry e c).Perm (e :: c) := by
  induction c with
  | nil => exact List.Perm.refl _
  | cons x xs ih =>
    simp only [entrySeqs, List.map_cons, List.mem_cons, not_or] at h
    unfold insertCacheEntry
    by_cases h1 : e.sequence < x.sequence
    · rw [if_pos h1]
    · rw [if_neg h1, if_neg h.1]
      have ihp := ih (by simpa [entrySeqs] using h.2)
      exact (ihp.cons x).trans (List.Perm.swap e x xs)

theorem allocate_perm (st : SeqCacheState) :
    (allSeqs (applyEvent st .allocate)).Perm (st.nextSeq :: allSeqs st) := by
  unfold allSeqs applyEvent
  simp only [List.append_assoc]
  exact List.perm_middle

theorem seqInv_applyEvent {start : Nat} {st : SeqCacheState} (inv : SeqInv start st)
    (ev : SeqEvent) : SeqInv start (applyEvent st ev) := by
  cases ev with
  | allocate =>
    have hperm := allocate_perm st
    have hnotmem : st.nextSeq ∉ allSeqs st := by
      intro hmem
      have := (inv.partition st.nextSeq).mpr hmem
      omega
    refine ⟨?_, ?_, ?_, ?_⟩
    · intro s
      rw [hperm.mem_iff, List.mem_cons]
      have hp := inv.partition s
      show start ≤ s ∧ s < st.nextSeq + 1 ↔ _
      rw [← hp]
      have hle := inv.le_next
      omega
    · rw [hperm.nodup_iff]
      exact List.nodup_cons.mpr ⟨hnotmem, inv.nodup⟩
    · show start ≤ st.nextSeq + 1
      have := inv.le_next
      omega
    · exact inv.sorted
  | arrive e =>
    simp only [applyEvent]
    by_cases hmem : e.sequence ∈ st.skipped
    · rw [if_pos hmem]
      have hnotentries : e.sequence ∉ entrySeqs st.entries := by
        intro hin
        have hnd := inv.nodup
        unfold allSeqs at hnd
        rw [List.append_assoc, List.nodup_append] at hnd
        exact hnd.2.2 hin (List.mem_append_left _ hmem)
      have hseqperm : (entrySeqs (insertCacheEntry e st.entries)).Perm
          (e.sequence :: entrySeqs st.entries) := by
        have h0 := (insertCacheEntry_perm hnotentries).map (fun x => x.sequence)
        simpa [entrySeqs] using h0
      have hskperm : st.skipped.Perm (e.sequence :: st.skipped.erase e.sequence) :=
        List.perm_cons_erase hmem
      have hleft : (entrySeqs (insertCacheEntry e st.entries)
            ++ st.skipped.erase e.sequence ++ st.aborted).Perm
          ((e.sequence :: entrySeqs st.entries)
            ++ st.skipped.erase e.sequence ++ st.aborted) :=
        (hseqperm.append_right _).append_right _
      have hright : (entrySeqs st.entries ++ st.skipped ++ st.aborted).Perm
          ((e.sequence :: entrySeqs st.entries)
            ++ st.skipped.erase e.sequence ++ st.aborted) :=
        (((hskperm.append_left (entrySeqs st.entries)).append_right st.aborted).trans
          (List.perm_middle.append_right st.aborted))
      have hperm : (allSeqs (SeqCacheState.mk st.nextSeq (insertCacheEntry e st.entries)
          (st.skipped.erase e.sequence) st.aborted)).Perm (allSeqs st) :=
        hleft.trans hright.symm
      refine ⟨?_, ?_, inv.le_next, insertCacheEntry_sorted e inv.sorted⟩
      · intro s
        rw [hperm.mem_iff]
        exact inv.partition s
      · rw [hperm.nodup_iff]
        exact inv.nodup
    · rw [if_neg hmem]
      exact inv
  | timeoutAbort s0 =>
    simp only [applyEvent]
    by_cases hmem : s0 ∈ st.skipped
    · rw [if_pos hmem]
      have hskperm : st.skipped.Perm (s0 :: st.skipped.erase s0) :=
        List.perm_cons_erase hmem
      have hleft : ((entrySeqs st.entries ++ st.skipped.erase s0) ++ (s0 :: st.aborted)).Perm
          (s0 :: ((entrySeqs st.entries ++ st.skipped.erase s0) ++ st.aborted)) :=
        List.perm_middle
      have hright : (entrySeqs st.entries ++ st.skipped ++ st.aborted).Perm
          (s0 :: ((entrySeqs st.entries ++ st.skipped.erase s0) ++ st.aborted)) :=
        (((hskperm.append_left (entrySeqs st.entries)).append_right st.aborted).trans
          (List.perm_middle.append_right st.aborted))
      have hperm : (allSeqs (SeqCacheState.mk st.nextSeq st.entries
          (st.skipped.erase s0) (s0 :: st.aborted))).Perm (allSeqs st) :=
        hleft.trans hright.symm
      refine ⟨?_, ?_, inv.le_next, inv.sorted⟩
      · intro s
        rw [hperm.mem_iff]
        exact inv.partition s
      · rw [hperm.nodup_iff]
        exact inv.nodup
    · rw [if_neg hmem]
      exact inv

theorem seqInv_runEvents (start : Nat) (evs : List SeqEvent) :
    SeqInv start (runEvents start evs) := by
  unfold runEvents
  have hinit : SeqInv start ⟨start, [], [], []⟩ := by
    refine ⟨?_, List.nodup_nil, Nat.le_refl _, List.Pairwise.nil⟩
    intro s
    simp only [allSeqs, entrySeqs, List.map_nil, List.append_nil, List.not_mem_nil, iff_false]
    omega
  revert hinit
  generalize (⟨start, [], [], []⟩ : SeqCacheState) = st
  induction evs generalizing st with
  | nil => exact fun h => h
  | cons ev evs ih =>
    intro h
    exact ih _ (seqInv_applyEvent h ev)

/-- Modelled from the spec: what an ordered consumer receives — either a
cache entry or the aborted marker emitted for a sequence that timed out
(spec sections 3 and 8, sequence-gap scenario). -/
inductive FeedItem where
  | entry (e : ChannelCacheEntry)
  | abortedAt (s : Nat)
deriving DecidableEq, Repr

/-- The ordering key of a feed item. -/
def FeedItem.sequence : FeedItem → Nat
  | .entry e => e.sequence
  | .abortedAt s => s

/-- Sorted insert of a feed item, by sequence. -/
def insertFeedItem (it : FeedItem) : List FeedItem → List FeedItem
  | [] => [it]
  | x :: xs =>
    if it.sequence ≤ x.sequence then it :: x :: xs else x :: insertFeedItem it xs

/-- Modelled from the spec: the sequence-ordered stream a consumer calling
Since(fromSequence) observes on the given state — the visible entries above
fromSequence merged with the aborted markers above fromSequence. -/
def consumerSince (fromSequence : Nat) (st : SeqCacheState) : List FeedItem :=
  ((sinceSeq fromSequence st.entries).map FeedItem.entry
      ++ (st.aborted.filter (fun s => fromSequence < s)).map FeedItem.abortedAt).foldl
    (fun acc it => insertFeedItem it acc) []

/-- Entry for sequence 10 of the sequence-gap scenario. -/
def gapEntry10 : ChannelCacheEntry := ⟨10, "doc10", "1-x", false⟩

/-- Entry for sequence 11 of the sequence-gap scenario. -/
def gapEntry11 : ChannelCacheEntry := ⟨11, "doc11", "1-y", false⟩

/-- Entry for sequence 12 of the sequence-gap scenario. -/
def gapEntry12 : ChannelCacheEntry := ⟨12, "doc12", "1-z", false⟩

/-- Claim C4: with sequences 10, 11, 12 allocated and 11 arriving before 10,
a consumer calling Since(9) observes 10, 11, 12 in order once all have
arrived; if 10 never arrives, after the timeout event the consumer receives
an aborted marker for 10 instead of blocking; and in every reachable state
each allocated sequence is in exactly one of cache, skipped set, aborted
set (the partition invariant, including the duplicate-free split). -/
theorem sequence_gap_scenario_and_partition :
    consumerSince 9 (runEvents 10
        [.allocate, .allocate, .allocate,
         .arrive gapEntry11, .arrive gapEntry10, .arrive gapEntry12])
      = [.entry gapEntry10, .entry gapEntry11, .entry gapEntry12]
    ∧ consumerSince 9 (runEvents 10
        [.allocate, .allocate, .allocate,
         .arrive gapEntry11, .arrive gapEntry12, .timeoutAbort 10])
      = [.abortedAt 10, .entry gapEntry11, .entry gapEntry12]
    ∧ ∀ (start : Nat) (evs : List SeqEvent), SeqInv start (runEvents start evs) :=
  ⟨by decide, by decide, seqInv_runEvents⟩

/-- Modelled from the spec: BackfillFrom queries the external secondary
index for the channel's entries with sequence > fromSequence; the index
returns them ordered by sequence (spec sections 4.2 and 6, Query collaborator). -/
def backfillFrom (fromSequence : Nat) (indexEntries : List ChannelCacheEntry) :
    List ChannelCacheEntry :=
  indexEntries.filter (fun e => fromSequence < e.sequence)

instance seqLtAntisymm : IsAntisymm ChannelCacheEntry (fun a b => a.sequence < b.sequence) :=
  ⟨fun _ _ h1 h2 => absurd h2 (Nat.lt_asymm h1)⟩

theorem buildChannelCache_perm {l : List ChannelCacheEntry}
    (h : (entrySeqs l).Nodup) : (buildChannelCache l).Perm l := by
  unfold buildChannelCache
  suffices haux : ∀ (l acc : List ChannelCacheEntry),
      (entrySeqs acc ++ entrySeqs l).Nodup →
      (l.foldl (fun c e => insertCacheEntry e c) acc).Perm (acc ++ l) by
    have := haux l []
    simp only [entrySeqs, List.map_nil, List.nil_append] at this
    simpa using this h
  intro l
  induction l with
  | nil =>
    intro acc _
    simp
  | cons x xs ih =>
    intro acc h
    have hx : x.sequence ∉ entrySeqs acc := by
      rw [List.nodup_append] at h
      intro hin
      exact h.2.2 hin (by simp [entrySeqs])
    have p1 : (insertCacheEntry x acc).Perm (x :: acc) := insertCacheEntry_perm hx
    have hnodup2 : (entrySeqs (insertCacheEntry x acc) ++ entrySeqs xs).Nodup := by
      have hmapperm : (entrySeqs (insertCacheEntry x acc)).Perm
          (x.sequence :: entrySeqs acc) := by
        have h0 := p1.map (fun e => e.sequence)
        simpa [entrySeqs] using h0
      have hfullperm : (entrySeqs (insertCacheEntry x acc) ++ entrySeqs xs).Perm
          (entrySeqs acc ++ entrySeqs (x :: xs)) := by
        have step1 := hmapperm.append_right (entrySeqs xs)
        have step2 : (entrySeqs acc ++ entrySeqs (x :: xs)).Perm
            ((x.sequence :: entrySeqs acc) ++ entrySeqs xs) := by
          show (entrySeqs acc ++ (x.sequence :: entrySeqs xs)).Perm _
          exact List.perm_middle
        exact step1.trans step2.symm
      exact hfullperm.nodup_iff.mpr h
    have hrec := ih (insertCacheEntry x acc) hnodup2
    show ((x :: xs).foldl (fun c e => insertCacheEntry e c) acc).Perm (acc ++ x :: xs)
    rw [List.foldl_cons]
    exact (hrec.trans (p1.append_right xs)).trans List.perm_middle.symm

theorem seqSorted_nodup_seqs {l : List ChannelCacheEntry} (h : seqSorted l) :
    (entrySeqs l).Nodup := by
  unfold entrySeqs
  have hpw : (List.map (fun e => e.sequence) l).Pairwise (· < ·) :=
    List.pairwise_map.mpr h
  exact List.Pairwise.imp (fun hab => Nat.ne_of_lt hab) hpw

/-- Claim C5: for a sequence range covered both by the in-memory cache and
by the secondary index, BackfillFrom returns exactly the entries — same
ordering and content — that the live cache path returns: whenever the index
holds the channel's entry set in sequence order and the cache was built from
those entries in any arrival order, the two paths agree. -/
theorem backfill_matches_live_cache (indexEntries arrivals : List ChannelCacheEntry)
    (fromSequence : Nat) (hperm : indexEntries.Perm arrivals)
    (hsorted : seqSorted indexEntries) :
    backfillFrom fromSequence indexEntries
      = sinceSeq fromSequence (buildChannelCache arrivals) := by
  have hnodupidx : (entrySeqs indexEntries).Nodup := seqSorted_nodup_seqs hsorted
  have hnoduparr : (entrySeqs arrivals).Nodup := by
    have hmapperm : (entrySeqs indexEntries).Perm (entrySeqs arrivals) := by
      have h0 := hperm.map (fun e => e.sequence)
      simpa [entrySeqs] using h0
    exact hmapperm.nodup_iff.mp hnodupidx
  have hbuildperm : (buildChannelCache arrivals).Perm indexEntries :=
    (buildChannelCache_perm hnoduparr).trans hperm.symm
  have hbuildsorted : seqSorted (buildChannelCache arrivals) :=
    buildChannelCache_sorted arrivals
  have heq : buildChannelCache arrivals = indexEntries :=
    List.eq_of_perm_of_sorted hbuildperm hbuildsorted hsorted
  rw [heq]
  rfl

/-- Witness for claim C5: a concrete sequence-ordered index listing and a
concrete out-of-order arrival order of the same entries agree. -/
theorem backfill_matches_live_cache_witness :
    backfillFrom 9 [gapEntry10, gapEntry11, gapEntry12]
      = sinceSeq 9 (buildChannelCache [gapEntry11, gapEntry10, gapEntry12]) :=
  backfill_matches_live_cache [gapEntry10, gapEntry11, gapEntry12]
    [gapEntry11, gapEntry10, gapEntry12] 9 (by decide)
    (by unfold seqSorted; decide)

/- ----------------------------------------------------------------- -/
/- Checkpoints (claim C6)                                            -/
/- ----------------------------------------------------------------- -/

/-- Modelled from the spec: the value stored for a checkpoint — a checkpoint
revision and the opaque client state blob carried by the setCheckpoint
message (spec section 3, Checkpoint; BlipTester.SetCheckpoint sends
client, rev and body). -/
structure ClientCheckpoint where
  rev : String
  body : String
deriving DecidableEq, Repr

/-- The checkpoint store: persisted values keyed by replicator identity
(spec section 3: one per connecting identity; owned by the store). -/
abbrev CheckpointStore := List (String × ClientCheckpoint)

/-- Modelled from the spec: SetCheckpoint persists the value under the
replicator identity, replacing any previous value for that identity
(created on first set, updated thereafter, spec section 3). -/
def setCheckpoint (store : CheckpointStore) (client : String) (cp : ClientCheckpoint) :
    CheckpointStore :=
  match store with
  | [] => [(client, cp)]
  | (c, v) :: rest =>
    if c = client then (client, cp) :: rest
    else (c, v) :: setCheckpoint rest client cp

/-- Modelled from the spec: GetCheckpoint retrieves the stored value for the
replicator identity, if any. -/
def getCheckpoint (store : CheckpointStore) (client : String) : Option ClientCheckpoint :=
  match store with
  | [] => none
  | (c, v) :: rest => if c = client then some v else getCheckpoint rest client

/-- Modelled from the spec: the events that can happen to a replication
relationship between a set and a later get — checkpoint sets for some
identity, and disconnects/reconnects of the session. The store is durable:
sessions are destroyed on disconnect, checkpoints are never silently
deleted (spec sections 3 and 7). -/
inductive ReplEvent where
  | setFor (client : String) (cp : ClientCheckpoint)
  | disconnect
  | reconnect
deriving DecidableEq, Repr

/-- The session-plus-store state: the durable checkpoint store and whether
the session is currently connected. -/
structure ReplState where
  store : CheckpointStore
  connected : Bool
deriving DecidableEq, Repr

/-- Modelled from the spec: disconnect and reconnect change only the session;
a checkpoint set writes through to the durable store. -/
def applyReplEvent (st : ReplState) : ReplEvent → ReplState
  | .setFor c cp => { st with store := setCheckpoint st.store c cp }
  | .disconnect => { st with connected := false }
  | .reconnect => { st with connected := true }

theorem getCheckpoint_setCheckpoint_self (store : CheckpointStore) (client : String)
    (cp : ClientCheckpoint) : getCheckpoint (setCheckpoint store client cp) client = some cp := by
  induction store with
  | nil => simp [setCheckpoint, getCheckpoint]
  | cons x rest ih =>
    obtain ⟨c, v⟩ := x
    unfold setCheckpoint
    by_cases hc : c = client
    · rw [if_pos hc]
      simp [getCheckpoint]
    · rw [if_neg hc]
      unfold getCheckpoint
      rw [if_neg hc]
      exact ih

/-- Claim C6: after SetCheckpoint stores a value for a replicator identity,
a GetCheckpoint for the same identity with no intervening set for that
identity returns exactly that value — across any sequence of disconnects,
reconnects and sets for other identities. -/
theorem checkpoint_get_after_set (store : CheckpointStore) (client : String)
    (cp : ClientCheckpoint) (evs : List ReplEvent)
    (h : ∀ c v, ReplEvent.setFor c v ∈ evs → c ≠ client) :
    getCheckpoint
      (evs.foldl applyReplEvent ⟨setCheckpoint store client cp, true⟩).store client
      = some cp := by
  suffices haux : ∀ (evs : List ReplEvent) (st : ReplState),
      (∀ c v, ReplEvent.setFor c v ∈ evs → c ≠ client) →
      getCheckpoint st.store client = some cp →
      getCheckpoint (evs.foldl applyReplEvent st).store client = some cp from
    haux evs _ h (getCheckpoint_setCheckpoint_self store client cp)
  intro evs
  induction evs with
  | nil => exact fun st _ hbase => hbase
  | cons ev rest ih =>
    intro st hno hbase
    rw [List.foldl_cons]
    refine ih _ (fun c v hv => hno c v (List.mem_cons_of_mem ev hv)) ?_
    cases ev with
    | setFor c v =>
      have hcne : c ≠ client := hno c v (List.mem_cons_self _ _)
      show getCheckpoint (setCheckpoint st.store c v) client = some cp
      rw [← hbase]
      clear hbase
      induction st.store with
      | nil => simp [setCheckpoint, getCheckpoint, hcne]
      | cons x rest2 ih2 =>
        obtain ⟨c2, v2⟩ := x
        unfold setCheckpoint
        by_cases hc2 : c2 = c
        · rw [if_pos hc2]
          unfold getCheckpoint
          rw [if_neg hcne, if_neg (hc2 ▸ hcne)]
        · rw [if_neg hc2]
          unfold getCheckpoint
          by_cases hc3 : c2 = client
          · rw [if_pos hc3, if_pos hc3]
          · rw [if_neg hc3, if_neg hc3]
            exact ih2
    | disconnect => exact hbase
    | reconnect => exact hbase

/-- Witness for claim C6: a concrete set, then disconnect and reconnect and
a set for a different identity, then get, returns the stored value. -/
theorem checkpoint_get_after_set_witness :
    getCheckpoint
      (([ReplEvent.disconnect, ReplEvent.reconnect,
         ReplEvent.setFor "other" ⟨"0-2", "s2"⟩].foldl applyReplEvent
        ⟨setCheckpoint [] "client1" ⟨"0-1", "s1"⟩, true⟩)).store "client1"
      = some ⟨"0-1", "s1"⟩ :=
  checkpoint_get_after_set [] "client1" ⟨"0-1", "s1"⟩
    [ReplEvent.disconnect, ReplEvent.reconnect, ReplEvent.setFor "other" ⟨"0-2", "s2"⟩]
    (by
      intro c v hv
      simp only [List.mem_cons, List.not_mem_nil, or_false] at hv
      rcases hv with hv | hv | hv
      · cases hv
      · cases hv
      · cases hv
        decide)

/- ----------------------------------------------------------------- -/
/- Attachment transfer over blip (claim C7)                          -/
/- ----------------------------------------------------------------- -/

/-- An attachment stub as carried in a document body: db.DocAttachment of
the source (content type, digest, length, revpos, stub flag, and the raw
data filled in after a fetch). -/
structure DocAttachment where
  contentType : String
  digest : String
  length : Int
  revpos : Int
  stub : Bool
  data : Option String
deriving DecidableEq, Repr

/-- db.AttachmentMap of the source: attachment name to attachment. -/
abbrev AttachmentMap := List (String × DocAttachment)

/-- The negotiated blip subprotocol; the source compares
blipContext.ActiveSubprotocol() against db.BlipCBMobileReplicationV3. -/
inductive BlipSubprotocol where
  | v2
  | v3
deriving DecidableEq, Repr

/-- A getAttachment request as built by BlipTester.PullDocs: the profile,
the digest property, and the optional docID property. -/
structure GetAttachmentRequest where
  profile : String
  digest : String
  docID : Option String
deriving DecidableEq, Repr

/-- The request BlipTester.PullDocs sends for one attachment
(src/rest/api_collections_test.go, rev handler of PullDocs): profile
db.MessageGetAttachment, the digest property always set from the
attachment's digest, and the docID property set exactly when the active
subprotocol is db.BlipCBMobileReplicationV3. -/
def mkGetAttachmentRequest (proto : BlipSubprotocol) (docId : String)
    (att : DocAttachment) : GetAttachmentRequest :=
  { profile := "getAttachment"
    digest := att.digest
    docID := if proto = .v3 then some docId else none }

/-- The requests BlipTester.PullDocs sends for a pulled revision: one
separate getAttachment exchange per attachment of the document's
attachment map — the bytes are never inlined in the rev message. -/
def pullDocsAttachmentRequests (proto : BlipSubprotocol) (docId : String)
    (atts : AttachmentMap) : List GetAttachmentRequest :=
  atts.map (fun p => mkGetAttachmentRequest proto docId p.2)

/-- Claim C7: attachments are fetched through separate get-attachment
requests, one per attachment, each keyed by the attachment's content digest
in every protocol version, and carrying the docID exactly when the
negotiated protocol is V3. -/
theorem pullDocs_attachment_requests_spec :
    ∀ (proto : BlipSubprotocol) (docId : String) (atts : AttachmentMap),
      (pullDocsAttachmentRequests proto docId atts).map GetAttachmentRequest.digest
        = atts.map (fun p => p.2.digest)
      ∧ ∀ r ∈ pullDocsAttachmentRequests proto docId atts,
          r.profile = "getAttachment" ∧ (r.docID = some docId ↔ proto = .v3) := by
  intro proto docId atts
  constructor
  · unfold pullDocsAttachmentRequests
    rw [List.map_map]
    rfl
  · intro r hr
    unfold pullDocsAttachmentRequests at hr
    obtain ⟨p, _, hp⟩ := List.mem_map.mp hr
    subst hp
    refine ⟨rfl, ?_⟩
    cases proto with
    | v2 => simp [mkGetAttachmentRequest]
    | v3 => simp [mkGetAttachmentRequest]

/-- Witness for claim C7: the concrete request sent for one attachment on
the V3 subprotocol carries its digest and the docID. -/
theorem pullDocs_attachment_requests_spec_witness :
    (mkGetAttachmentRequest .v3 "doc1" ⟨"text-plain", "sha1-abc", 5, 1, true, none⟩).profile
        = "getAttachment"
    ∧ ((mkGetAttachmentRequest .v3 "doc1"
          ⟨"text-plain", "sha1-abc", 5, 1, true, none⟩).docID = some "doc1"
        ↔ BlipSubprotocol.v3 = BlipSubprotocol.v3) :=
  (pullDocs_attachment_requests_spec .v3 "doc1"
      [("att1", ⟨"text-plain", "sha1-abc", 5, 1, true, none⟩)]).2
    (mkGetAttachmentRequest .v3 "doc1" ⟨"text-plain", "sha1-abc", 5, 1, true, none⟩)
    (by decide)

/- ----------------------------------------------------------------- -/
/- Keyspace resolution (claim C8)                                    -/
/- ----------------------------------------------------------------- -/

/-- Modelled from the spec: the scopes/collections part of a database
configuration — scope names each holding a list of collection names
(ScopesConfig of TestCollectionsPutDocInKeyspace). -/
structure ScopesConfig where
  scopes : List (String × List String)
deriving DecidableEq, Repr

/-- A keyspace as addressed by a document request: the database alone
(implicit scope and collection), database plus collection, or fully
qualified database, scope and collection. -/
inductive Keyspace where
  | dbOnly
  | dbCollection (coll : String)
  | dbScopeCollection (scope : String) (coll : String)
deriving DecidableEq, Repr

/-- Modelled from the spec and TestCollectionsPutDocInKeyspace: resolving a
keyspace against the configured scopes. The bare database name resolves when
exactly one scope with exactly one collection is configured; a two-part
keyspace resolves when exactly one configured scope holds that collection;
a fully qualified keyspace resolves when the named scope is configured and
holds the named collection. -/
def resolveKeyspace (cfg : ScopesConfig) : Keyspace → Option (String × String)
  | .dbOnly =>
    match cfg.scopes with
    | [(s, [c])] => some (s, c)
    | _ => none
  | .dbCollection c =>
    match cfg.scopes.filter (fun sc => sc.2.contains c) with
    | [(s, _)] => some (s, c)
    | _ => none
  | .dbScopeCollection s c =>
    match cfg.scopes.find? (fun sc => sc.1 = s) with
    | some (_, cols) => if c ∈ cols then some (s, c) else none
    | none => none

/-- Modelled from the spec: the status of a document write addressed to a
keyspace — 201 Created when the scope and collection resolve, 404 Not Found
(the client-visible missing outcome) otherwise (spec section 7, NotFound;
TestCollectionsPutDocInKeyspace expectations). -/
def putDocStatus (cfg : ScopesConfig) (ks : Keyspace) : Nat :=
  if (resolveKeyspace cfg ks).isSome then 201 else 404

/-- Claim C8: with a single configured scope and collection, a put through
the implicit, fully qualified or collection-only keyspace succeeds with a
created outcome, while a put naming an unconfigured collection or scope
fails with the not-found outcome. -/
theorem put_doc_in_keyspace_statuses (scopeName collectionName : String)
    (hs : scopeName ≠ "buzz") (hc : collectionName ≠ "buzz") :
    let cfg : ScopesConfig := ⟨[(scopeName, [collectionName])]⟩
    putDocStatus cfg .dbOnly = 201
    ∧ putDocStatus cfg (.dbScopeCollection scopeName collectionName) = 201
    ∧ putDocStatus cfg (.dbCollection collectionName) = 201
    ∧ putDocStatus cfg (.dbScopeCollection scopeName "buzz") = 404
    ∧ putDocStatus cfg (.dbScopeCollection "buzz" collectionName) = 404 := by
  intro cfg
  refine ⟨?_, ?_, ?_, ?_, ?_⟩
  · rfl
  · simp [putDocStatus, resolveKeyspace, List.find?]
  · simp [putDocStatus, resolveKeyspace, List.filter, List.contains]
  · simp [putDocStatus, resolveKeyspace, List.find?, hc, Ne.symm hc]
  · simp [putDocStatus, resolveKeyspace, List.find?, hs, Ne.symm hs]

/-- Witness for claim C8: the statuses for the concrete scope and collection
used by the collections test bucket. -/
theorem put_doc_in_keyspace_statuses_witness :
    putDocStatus ⟨[("fooScope", ["bar"])]⟩ .dbOnly = 201
    ∧ putDocStatus ⟨[("fooScope", ["bar"])]⟩ (.dbScopeCollection "fooScope" "bar") = 201
    ∧ putDocStatus ⟨[("fooScope", ["bar"])]⟩ (.dbCollection "bar") = 201
    ∧ putDocStatus ⟨[("fooScope", ["bar"])]⟩ (.dbScopeCollection "fooScope" "buzz") = 404
    ∧ putDocStatus ⟨[("fooScope", ["bar"])]⟩ (.dbScopeCollection "buzz" "bar") = 404 :=
  put_doc_in_keyspace_statuses "fooScope" "bar" (by decide) (by decide)

/- ----------------------------------------------------------------- -/
/- clistruct reflection (claim C9)                                   -/
/- ----------------------------------------------------------------- -/

/-- The kind of a Go reflect value, as inspected by reflectStructValue
(src/base/clistruct/reflect.go). -/
inductive GoKind where
  | structKind
  | intKind
  | stringKind
  | boolKind
  | ptrKind
  | invalidKind
deriving DecidableEq, Repr

/-- A Go value as passed through the empty-interface parameter of
reflectStructValue: basic values, struct values with their field values, and
pointers (none models a nil pointer). -/
inductive GoValue where
  | intV (n : Int)
  | stringV (s : String)
  | boolV (b : Bool)
  | structV (fields : List GoValue)
  | ptrV (target : Option GoValue)

mutual
/-- reflect.Value.IsZero of the source: a basic value equal to its zero
value, a nil pointer, or a struct all of whose fields are zero. -/
def GoValue.isZero : GoValue → Bool
  | .intV n => n == 0
  | .stringV s => s == ""
  | .boolV b => !b
  | .structV fields => GoValue.allZero fields
  | .ptrV t => t.isNone

/-- All field values are zero. -/
def GoValue.allZero : List GoValue → Bool
  | [] => true
  | f :: fs => f.isZero && GoValue.allZero fs
end

/-- reflect.Value.Kind of the source. -/
def GoValue.kind : GoValue → GoKind
  | .intV _ => .intKind
  | .stringV _ => .stringKind
  | .boolV _ => .boolKind
  | .structV _ => .structKind
  | .ptrV _ => .ptrKind

/-- reflect.Indirect of the source: dereferences one level of pointer and
returns every non-pointer value unchanged. In Go, indirecting a nil pointer
yields the invalid value, whose kind `GoValue.indirectKind` reports as
invalid; the value itself is left unchanged here, and that branch is
unreachable in reflectStructValue because a nil pointer is zero and is
rejected first. -/
def GoValue.indirect : GoValue → GoValue
  | .ptrV (some v) => v
  | .ptrV none => .ptrV none
  | v => v

/-- The kind reflect.Indirect's result reports: the invalid kind for a
dereferenced nil pointer, the value's own kind otherwise. -/
def GoValue.indirectKind : GoValue → GoKind
  | .ptrV (some v) => v.kind
  | .ptrV none => .invalidKind
  | v => v.kind

/-- The two error outcomes of reflectStructValue: the nil-value error
(errors.New of the source) and the not-a-struct error (fmt.Errorf of the
source, carrying the offending kind). -/
inductive ReflectError where
  | nilValue
  | notStruct (kind : GoKind)
deriving DecidableEq, Repr

/-- reflectStructValue of src/base/clistruct/reflect.go: rejects a zero
value with the nil-value error, dereferences one pointer level, rejects a
non-struct dereferenced value with the not-a-struct error, and otherwise
returns the dereferenced struct value. -/
def reflectStructValue (val : GoValue) : Except ReflectError GoValue :=
  if val.isZero then .error .nilValue
  else if val.indirectKind ≠ .structKind then .error (.notStruct val.indirectKind)
  else .ok val.indirect

/-- Claim C9: for every non-nil pointer to a struct, reflectStructValue
returns the dereferenced struct value with no error; and for every non-zero
value that does not dereference to a struct, it returns an error value (it
reports failure through the error result, not by panicking — the function
is total here). -/
theorem reflectStructValue_spec :
    (∀ fields : List GoValue,
      reflectStructValue (.ptrV (some (.structV fields))) = .ok (.structV fields))
    ∧ ∀ v : GoValue, v.isZero = false → v.indirectKind ≠ .structKind →
        reflectStructValue v = .error (.notStruct v.indirectKind) := by
  constructor
  · intro fields
    rfl
  · intro v hz hk
    unfold reflectStructValue
    rw [hz]
    simp [hk]

/-- Witness for claim C9: a non-nil pointer to a concrete struct succeeds;
a non-zero int value fails with the not-a-struct error. -/
theorem reflectStructValue_spec_witness :
    reflectStructValue (.ptrV (some (.structV [.intV 3]))) = .ok (.structV [.intV 3])
    ∧ reflectStructValue (.intV 5) = .error (.notStruct .intKind) :=
  ⟨reflectStructValue_spec.1 [.intV 3],
   reflectStructValue_spec.2 (.intV 5) rfl (by simp [GoValue.indirectKind, GoValue.kind])⟩

/- ----------------------------------------------------------------- -/
/- RestDocument attachments (claim C10)                              -/
/- ----------------------------------------------------------------- -/

/-- A JSON value as produced by unmarshalling a document body: the shapes an
_attachments entry can take before it is converted to a DocAttachment. -/
inductive JsonValue where
  | jstr (s : String)
  | jnum (n : Int)
  | jbool (b : Bool)
  | jnull
  | jobj (fields : List (String × JsonValue))

/-- First binding for a key in a JSON object. -/
def jsonLookup (fields : List (String × JsonValue)) (k : String) : Option JsonValue :=
  match fields with
  | [] => none
  | (k2, v) :: rest => if k2 = k then some v else jsonLookup rest k

/-- Decodes an optional string field: absent or null leaves the Go zero
value, a string is taken, any other shape is a type error. -/
def decodeStringField (fields : List (String × JsonValue)) (k : String) (dflt : String) :
    Except String String :=
  match jsonLookup fields k with
  | none => .ok dflt
  | some .jnull => .ok dflt
  | some (.jstr s) => .ok s
  | some _ => .error ("json: cannot unmarshal value into field " ++ k ++ " of type string")

/-- Decodes an optional integer field. -/
def decodeIntField (fields : List (String × JsonValue)) (k : String) (dflt : Int) :
    Except String Int :=
  match jsonLookup fields k with
  | none => .ok dflt
  | some .jnull => .ok dflt
  | some (.jnum n) => .ok n
  | some _ => .error ("json: cannot unmarshal value into field " ++ k ++ " of type int")

/-- Decodes an optional boolean field. -/
def decodeBoolField (fields : List (String × JsonValue)) (k : String) (dflt : Bool) :
    Except String Bool :=
  match jsonLookup fields k with
  | none => .ok dflt
  | some .jnull => .ok dflt
  | some (.jbool b) => .ok b
  | some _ => .error ("json: cannot unmarshal value into field " ++ k ++ " of type bool")

/-- The marshal-then-unmarshal step of GetAttachments: a raw attachment
value becomes a db.DocAttachment; fields that are absent keep the zero
value, fields of the wrong shape are unmarshal errors, and a non-object
cannot become a struct at all. -/
def jsonToDocAttachment (j : JsonValue) : Except String DocAttachment :=
  match j with
  | .jobj fields =>
    (decodeStringField fields "content_type" "").bind (fun ct =>
      (decodeStringField fields "digest" "").bind (fun dg =>
        (decodeIntField fields "length" 0).bind (fun len =>
          (decodeIntField fields "revpos" 0).bind (fun rp =>
            (decodeBoolField fields "stub" false).bind (fun sb =>
              .ok ⟨ct, dg, len, rp, sb, none⟩)))))
  | _ => .error "json: cannot unmarshal non-object value into DocAttachment"

/-- Converts the raw attachments map entry by entry, stopping at the first
unmarshal error, as the loop of GetAttachments does. -/
def convertRawAttachments : List (String × JsonValue) → Except String AttachmentMap
  | [] => .ok []
  | (name, j) :: rest =>
    (jsonToDocAttachment j).bind (fun att =>
      (convertRawAttachments rest).map (fun m => (name, att) :: m))

/-- A value stored under a key of a RestDocument: plain strings (the _id and
_rev fields), booleans (the _removed field), a typed AttachmentMap (what
SetAttachments stores), or the raw JSON map unmarshalling produces. -/
inductive BodyValue where
  | strB (s : String)
  | boolB (b : Bool)
  | attMap (m : AttachmentMap)
  | rawMap (entries : List (String × JsonValue))

/-- RestDocument of the source: a map from field name to value
(src/rest/api_collections_test.go, type RestDocument map[string]interface). -/
abbrev RestDocument := List (String × BodyValue)

/-- db.BodyAttachments, the reserved _attachments field name. -/
def bodyAttachments : String := "_attachments"

/-- Map update: replaces the binding for the key, or appends one. -/
def rdSet (d : RestDocument) (k : String) (v : BodyValue) : RestDocument :=
  match d with
  | [] => [(k, v)]
  | (k2, v2) :: rest => if k2 = k then (k, v) :: rest else (k2, v2) :: rdSet rest k v

/-- Map read: the binding for the key, if any. -/
def rdLookup (d : RestDocument) (k : String) : Option BodyValue :=
  match d with
  | [] => none
  | (k2, v) :: rest => if k2 = k then some v else rdLookup rest k

/-- The outcome of RestDocument.GetAttachments: the map together with a nil
error, the empty map together with a non-nil error, or a panic of the
map-type assertion on a value that is neither an AttachmentMap nor a raw
map. -/
inductive AttachmentsResult where
  | ok (m : AttachmentMap)
  | err (msg : String)
  | panicked
deriving Repr

/-- RestDocument.SetAttachments of the source: stores the typed
AttachmentMap under the _attachments key. -/
def RestDocument.SetAttachments (d : RestDocument) (attachments : AttachmentMap) :
    RestDocument :=
  rdSet d bodyAttachments (.attMap attachments)

/-- RestDocument.GetAttachments of the source: no _attachments key yields
the empty attachment map and a nil error; a value that is already an
AttachmentMap is returned as-is with a nil error; a raw map is converted
entry by entry, an unmarshal error yielding the empty map and that error;
any other value hits the type assertion and panics. -/
def RestDocument.GetAttachments (d : RestDocument) : AttachmentsResult :=
  match rdLookup d bodyAttachments with
  | none => .ok []
  | some (.attMap m) => .ok m
  | some (.rawMap entries) =>
    match convertRawAttachments entries with
    | .ok m => .ok m
    | .error msg => .err msg
  | some _ => .panicked

theorem rdLookup_rdSet (d : RestDocument) (k : String) (v : BodyValue) :
    rdLookup (rdSet d k v) k = some v := by
  induction d with
  | nil => simp [rdSet, rdLookup]
  | cons x rest ih =>
    obtain ⟨k2, v2⟩ := x
    unfold rdSet
    by_cases hk : k2 = k
    · rw [if_pos hk]
      simp [rdLookup]
    · rw [if_neg hk]
      unfold rdLookup
      rw [if_neg hk]
      exact ih

/-- Claim C10: for every RestDocument and every AttachmentMap, a
SetAttachments followed by GetAttachments returns exactly that map with a
nil error; and GetAttachments of a document with no _attachments field
returns the empty attachment map with a nil error. -/
theorem restDocument_attachments_roundtrip :
    (∀ (d : RestDocument) (m : AttachmentMap),
      RestDocument.GetAttachments (RestDocument.SetAttachments d m) = .ok m)
    ∧ ∀ d : RestDocument, rdLookup d bodyAttachments = none →
        RestDocument.GetAttachments d = .ok [] := by
  constructor
  · intro d m
    unfold RestDocument.GetAttachments RestDocument.SetAttachments
    rw [rdLookup_rdSet]
  · intro d hd
    unfold RestDocument.GetAttachments
    rw [hd]

/-- Witness for claim C10: a concrete set-then-get returns the stored map,
and a concrete document without attachments yields the empty map. -/
theorem restDocument_attachments_roundtrip_witness :
    RestDocument.GetAttachments (RestDocument.SetAttachments
        [("_id", .strB "doc1")] [("att1", ⟨"text-plain", "sha1-abc", 5, 1, true, none⟩)])
      = .ok [("att1", ⟨"text-plain", "sha1-abc", 5, 1, true, none⟩)]
    ∧ RestDocument.GetAttachments [("_id", .strB "doc1")] = .ok [] :=
  ⟨restDocument_attachments_roundtrip.1 [("_id", .strB "doc1")]
      [("att1", ⟨"text-plain", "sha1-abc", 5, 1, true, none⟩)],
   restDocument_attachments_roundtrip.2 [("_id", .strB "doc1")] rfl⟩
